import Mathlib

/-!
Shallow embedding of the hexchat translator addon (src/lib.rs) and proofs
about its segmenter, translation pipeline, context registry and event
handlers.
-/

namespace HexTr

/-!
Segmenter.  The source builds the regex  .+?(?:[.?!;|]+\s+|$)  and iterates
its matches over the input with find_iter (google_translate_free, lib.rs).
The embedding models exactly that regex with its leftmost-first, lazy
semantics: a match starts with one or more characters matched by the class
of the dot (any character other than a newline), grown lazily one character
at a time; after the lazily grown head the engine first tries a greedy run
of stop punctuation followed by a greedy run of whitespace, and otherwise
accepts only at the end of the haystack.  Unmatched characters (which can
only arise from newlines) are skipped one at a time, as find_iter does.
-/

/-- The sentence-stop class of the regex: one of  . ? ! ; |  . -/
def isStop (c : Char) : Bool :=
  c == '.' || c == '?' || c == '!' || c == ';' || c == '|'

/-- The whitespace class of the regex engine used by the source (Unicode
White_Space). -/
def isWsRust (c : Char) : Bool :=
  c == ' ' || c == '\t' || c == '\n' || c == '\u000B' || c == '\u000C' ||
  c == '\r' || c == '\u0085' || c == '\u00A0' || c == '\u1680' ||
  (0x2000 ≤ c.toNat && c.toNat ≤ 0x200A) ||
  c == '\u2028' || c == '\u2029' || c == '\u202F' || c == '\u205F' ||
  c == '\u3000'

/-- The class matched by the dot of the regex: any character except a
newline (the source does not enable the dot-matches-newline flag). -/
def isDot (c : Char) : Bool := c != '\n'

/-- Attempt of the first alternative of the group: a greedy nonempty run of
stop punctuation followed by a greedy nonempty run of whitespace.  Returns
the number of characters consumed. -/
def tryPunct (l : List Char) : Option Nat :=
  let stops := l.takeWhile isStop
  let ws := (l.dropWhile isStop).takeWhile isWsRust
  if stops.isEmpty then none
  else if ws.isEmpty then none
  else some (stops.length + ws.length)

/-- Lazy growth of the head of the match.  `k` characters have already been
consumed by the lazy head; the group is tried before every further growth
step, and the end-of-input alternative succeeds when the rest is empty. -/
def goMatch : List Char → Nat → Option Nat
  | [], k => some k
  | c :: rest, k =>
    match tryPunct (c :: rest) with
    | some m => some (k + m)
    | none => if isDot c then goMatch rest (k + 1) else none

/-- Length of the regex match starting exactly at the head of `l`, if any. -/
def matchFrom : List Char → Option Nat
  | [] => none
  | c :: rest => if isDot c then goMatch rest 1 else none

/-- Fuelled iteration of the matcher over the haystack, mirroring
find_iter: emit the match found at the current position, or skip one
character when no match starts here.  Every step consumes at least one
character, so fuel equal to the length of the haystack suffices. -/
def findIterF : Nat → List Char → List (List Char)
  | 0, _ => []
  | _ + 1, [] => []
  | fuel + 1, c :: rest =>
    match matchFrom (c :: rest) with
    | some m => (c :: rest).take m :: findIterF fuel ((c :: rest).drop m)
    | none => findIterF fuel rest

/-- All matches of the segmenting regex over the haystack, in order. -/
def findIter (l : List Char) : List (List Char) := findIterF l.length l

/-- The ordered unit texts produced by the segmenter for an input string. -/
def segment (s : String) : List String := (findIter s.data).map String.mk

/-!
Segment translator.  translate_single performs one HTTPS GET per unit; the
embedding abstracts the network interaction into an outcome value that
records which of the code's own branch conditions held, and keeps the
code's handling of each branch. -/

/-- Outcome of reading and parsing the body of a response whose status text
was OK. -/
inductive BodyOutcome where
  | readFail
  | parseFail
  | noTextField
  | text (t : String)
deriving DecidableEq

/-- Outcome of one network round trip, as discriminated by the code:
escaping failure before the request, transport failure, a response with
status text OK, a response with status 403, or any other response with its
status text. -/
inductive NetOutcome where
  | escapeFail
  | transportFail
  | httpOk (body : BodyOutcome)
  | http403
  | httpOther (statusText : String)
deriving DecidableEq

/-- The error type produced by translate_single. -/
inductive SingleTranslationError where
  | StaticError (s : String)
  | DynamicError (s : String)
  | OverLimit (s : String)
deriving DecidableEq

/-- Embedding of translate_single: classify the outcome and, on success,
re-append a single space when the unit text ends with the space
character. -/
def translate_single (sentence : String) (net : NetOutcome) :
    Except SingleTranslationError String :=
  match net with
  | .escapeFail => .error (.StaticError ("URL message escaping failed."))
  | .transportFail =>
      .error (.StaticError ("Failed to get response from translation server."))
  | .httpOk .readFail =>
      .error (.StaticError ("Failed to get text for HTTP response body."))
  | .httpOk .parseFail =>
      .error (.StaticError ("Received invalid response format from server."))
  | .httpOk .noTextField =>
      .error (.StaticError ("Received invalid response format from server."))
  | .httpOk (.text t) =>
      .ok (if sentence.data.getLast? = some ' ' then t.push ' ' else t)
  | .http403 => .error (.OverLimit ("Server translation limit reached."))
  | .httpOther st => .error (.DynamicError st)

/-- The aggregated error returned by google_translate_free.  The first
field (partial_trans in the source) holds the best-effort output text. -/
structure TranslationError where
  part_trans : String
  error_msg : String
  over_limit : Bool
deriving DecidableEq

/-- The description string carried by a per-unit error. -/
def errDesc : SingleTranslationError → String
  | .StaticError s => s
  | .DynamicError s => s
  | .OverLimit s => s

/-- Whether a per-unit error is the rate-limited classification. -/
def isOverErr : SingleTranslationError → Bool
  | .OverLimit _ => true
  | _ => false

/-- Removal of consecutive duplicates, as Vec::dedup does after the sort. -/
def dedupConsec : List String → List String
  | [] => []
  | [a] => [a]
  | a :: b :: rest =>
    if a = b then dedupConsec (b :: rest) else a :: dedupConsec (b :: rest)

/-- Lexicographic comparison of character lists by code point, the order
the source's sort uses on strings (byte-lexicographic order of UTF-8
strings coincides with code-point-lexicographic order). -/
def charListLe : List Char → List Char → Bool
  | [], _ => true
  | _ :: _, [] => false
  | a :: as, b :: bs =>
    if a < b then true else if b < a then false else charListLe as bs

/-- The string order used for sorting the error descriptions. -/
def strLe (a b : String) : Prop := charListLe a.data b.data = true

instance strLe_dec : DecidableRel strLe :=
  fun a b => instDecidableEqBool (charListLe a.data b.data) true

/-- The strict version of the string order. -/
def strLt (a b : String) : Prop := strLe a b ∧ a ≠ b

/-- The accumulation loop of google_translate_free over the ordered units:
on success append the translation, on failure append the original unit
text, record the error description and whether it was rate limited.  The
environment function gives the network outcome of the i-th request. -/
def gtfRunE (env : Nat → NetOutcome) : List String → String × List String × Bool
  | [] => ("", [], false)
  | u :: rest =>
    let r := gtfRunE (fun i => env (i + 1)) rest
    match translate_single u (env 0) with
    | .ok tr => (tr ++ r.1, r.2.1, r.2.2)
    | .error e => (u ++ r.1, errDesc e :: r.2.1, isOverErr e || r.2.2)

/-- Embedding of google_translate_free: segment the text, run every unit
through translate_single, and either return the clean concatenation or an
aggregated error whose message joins the sorted, deduplicated
descriptions. -/
def google_translate_free (text : String) (env : Nat → NetOutcome) :
    Except TranslationError String :=
  if (gtfRunE env (segment text)).2.1.isEmpty then
    .ok (gtfRunE env (segment text)).1
  else
    .error
      { part_trans := (gtfRunE env (segment text)).1
        error_msg :=
          String.intercalate (" ")
            (dedupConsec
              (List.insertionSort strLe (gtfRunE env (segment text)).2.1))
        over_limit := (gtfRunE env (segment text)).2.2 }

/-- The user-visible output text of an aggregate outcome: the clean
translation on success, the best-effort text carried by the error
otherwise. -/
def output_text : Except TranslationError String → String
  | .ok s => s
  | .error e => e.part_trans

/-!
Context registry.  The source keeps a HashMap from (network, channel) to
(source language, target language); the embedding models the map
extensionally as a function into Option. -/

/-- A (network, channel) key, also used as a (source, target) value. -/
abbrev ChanData := String × String

/-- The registry map from contexts to chosen language pairs. -/
abbrev ChanMap := ChanData → Option ChanData

/-- HashMap::insert. -/
def chan_insert (k v : ChanData) (m : ChanMap) : ChanMap :=
  fun x => if x = k then some v else m x

/-- HashMap::remove. -/
def chan_remove (k : ChanData) (m : ChanMap) : ChanMap :=
  fun x => if x = k then none else m x

/-- The empty registry the addon starts with. -/
def emptyChanMap : ChanMap := fun _ => none

/-- Embedding of activate: store the language pair under the current
context key. -/
def activate (net chan source dest : String) (m : ChanMap) : ChanMap :=
  chan_insert (net, chan) (source, dest) m

/-- Embedding of deactivate: drop the entry of the current context key. -/
def deactivate (net chan : String) (m : ChanMap) : ChanMap :=
  chan_remove (net, chan) m

/-- Embedding of get_channel_langs: look the current context key up. -/
def get_channel_langs (net chan : String) (m : ChanMap) : Option ChanData :=
  m (net, chan)

/-- The static table of supported languages, in source order. -/
def SUPPORTED_LANGUAGES : List (String × String) := [
  ("Afrikaans", "af"), ("Hmong", "hmn"), ("Polish", "pl"),
  ("Albanian", "sq"), ("Hungarian", "hu"), ("Portuguese", "pt"),
  ("Amharic", "am"), ("Icelandic", "is"), ("Punjabi", "pa"),
  ("Arabic", "ar"), ("Igbo", "ig"), ("Romanian", "ro"),
  ("Armenian", "hy"), ("Indonesian", "id"), ("Russian", "ru"),
  ("Azeerbaijani", "az"), ("Irish", "ga"), ("Samoan", "sm"),
  ("Basque", "eu"), ("Italian", "it"), ("Scots_Gaelic", "gd"),
  ("Belarusian", "be"), ("Japanese", "ja"), ("Serbian", "sr"),
  ("Bengali", "bn"), ("Javanese", "jw"), ("Sesotho", "st"),
  ("Bosnian", "bs"), ("Kannada", "kn"), ("Shona", "sn"),
  ("Bulgarian", "bg"), ("Kazakh", "kk"), ("Sindhi", "sd"),
  ("Catalan", "ca"), ("Khmer", "km"), ("Sinhala", "si"),
  ("Cebuano", "ceb"), ("Korean", "ko"), ("Slovak", "sk"),
  ("Chinese", "zh"), ("Kurdish", "ku"), ("Slovenian", "sl"),
  ("Corsican", "co"), ("Kyrgyz", "ky"), ("Somali", "so"),
  ("Croatian", "hr"), ("Lao", "lo"), ("Spanish", "es"),
  ("Czech", "cs"), ("Latin", "la"), ("Sundanese", "su"),
  ("Danish", "da"), ("Latvian", "lv"), ("Swahili", "sw"),
  ("Dutch", "nl"), ("Lithuanian", "lt"), ("Swedish", "sv"),
  ("English", "en"), ("Luxembourgish", "lb"), ("Tagalog", "tl"),
  ("Esperanto", "eo"), ("Macedonian", "mk"), ("Tajik", "tg"),
  ("Estonian", "et"), ("Malagasy", "mg"), ("Tamil", "ta"),
  ("Finnish", "fi"), ("Malay", "ms"), ("Telugu", "te"),
  ("French", "fr"), ("Malayalam", "ml"), ("Thai", "th"),
  ("Frisian", "fy"), ("Maltese", "mt"), ("Turkish", "tr"),
  ("Galician", "gl"), ("Maori", "mi"), ("Ukrainian", "uk"),
  ("Georgian", "ka"), ("Marathi", "mr"), ("Urdu", "ur"),
  ("German", "de"), ("Mongolian", "mn"), ("Uzbek", "uz"),
  ("Greek", "el"), ("Myanmar", "my"), ("Vietnamese", "vi"),
  ("Gujarati", "gu"), ("Nepali", "ne"), ("Welsh", "cy"),
  ("Haitian_Creole", "ht"), ("Norwegian", "no"), ("Xhosa", "xh"),
  ("Hausa", "ha"), ("Nyanja", "ny"), ("Yiddish", "yi"),
  ("Hawaiian", "haw"), ("Pashto", "ps"), ("Yoruba", "yo"),
  ("Hebrew", "he"), ("Persian", "fa"), ("Zulu", "zu"),
  ("Hindi", "hi"), ("", ""), ("", "")]

/-- Character-wise ASCII lowercasing; the table's long names are plain
ASCII, for which this coincides with the lowercasing the source applies. -/
def ascii_lower (s : String) : String := String.mk (s.data.map Char.toLower)

/-- Embedding of find_lang: lowercase the argument and return the first
table entry whose lowercased long name or whose abbreviation equals it. -/
def find_lang (lang : String) : Option (String × String) :=
  let l := ascii_lower lang
  SUPPORTED_LANGUAGES.find? (fun li => l == ascii_lower li.1 || l == li.2)

/-- Embedding of the registry effect of on_cmd_setlang: with exactly two
arguments that both resolve to table entries and to two distinct entries,
activate the context with the abbreviations of the entries; in every other
case leave the registry unchanged. -/
def on_cmd_setlang (word : List String) (net chan : String) (m : ChanMap) :
    ChanMap :=
  match word with
  | [_, src, tgt] =>
    match find_lang src, find_lang tgt with
    | some si, some ti =>
      if si ≠ ti then activate net chan si.2 ti.2 m else m
    | _, _ => m
  | _ => m

/-- Whether a string occurs in the abbreviation column of the table. -/
def is_abbrev (s : String) : Bool :=
  SUPPORTED_LANGUAGES.any (fun p => p.2 == s)

/-- Invariant: every language pair stored in the registry consists of two
abbreviation-column entries of the table. -/
def registryNormalized (m : ChanMap) : Prop :=
  ∀ k v, m k = some v → is_abbrev v.1 = true ∧ is_abbrev v.2 = true

/-!
Receive handler.  try_on_recv_message first discards short events and
events whose last field is the sentinel, then, when translation is active,
re-injects the translated message with the sentinel appended as the last
field. -/

/-- What the receive handler does with an event: ignore it (the sentinel
or length guard fired), do nothing because translation is off here, or
re-inject a synthetic event with the given fields. -/
inductive RecvAction where
  | ignore
  | notActive
  | emit (fields : List String)
deriving DecidableEq

/-- Embedding of try_on_recv_message: the guard, the registry check and
the construction of the emit_print field list, with `msg` the translated
text the background worker delivered. -/
def try_on_recv_message (word : List String) (chanLangs : Option ChanData)
    (msg : String) : RecvAction :=
  if word.length < 2 || word.getLast? == some ("~") then .ignore
  else
    match chanLangs with
    | some _ =>
      let sender := word.headD ("")
      let mode_char := if 2 < word.length then word.getD 2 ("") else ""
      if mode_char.isEmpty then .emit [sender, msg, "~"]
      else .emit [sender, msg, mode_char, "~"]
    | none => .notActive

/-!
Definitions taken from the specification, used to state the claims about
the pipeline against the code. -/

/-- Per-unit expected output text, following the words of the
specification: the translated text where the unit succeeded and the
original unit text where it failed, joined in original order. -/
def spec_output_text (env : Nat → NetOutcome) : List String → String
  | [] => ""
  | u :: rest =>
    (match translate_single u (env 0) with
     | .ok t => t
     | .error _ => u) ++ spec_output_text (fun i => env (i + 1)) rest

/-- The error descriptions of the failing units, in original order. -/
def unit_error_msgs (env : Nat → NetOutcome) : List String → List String
  | [] => []
  | u :: rest =>
    match translate_single u (env 0) with
    | .ok _ => unit_error_msgs (fun i => env (i + 1)) rest
    | .error e => errDesc e :: unit_error_msgs (fun i => env (i + 1)) rest

/-- Whether at least one unit was classified rate limited. -/
def any_over (env : Nat → NetOutcome) : List String → Bool
  | [] => false
  | u :: rest =>
    (match translate_single u (env 0) with
     | .ok _ => false
     | .error e => isOverErr e) || any_over (fun i => env (i + 1)) rest

/-- No stop-punctuation character directly followed by a whitespace
character anywhere in the list (the hypothesis of the single-unit
claim). -/
def noStopWsB : List Char → Bool
  | a :: b :: rest => (!(isStop a && isWsRust b)) && noStopWsB (b :: rest)
  | _ => true

/-! Theorems. -/

/-- Two strings with the same character data are equal. -/
theorem string_eq_of_data (a b : String) (h : a.data = b.data) : a = b :=
  congrArg String.mk h

/-- A result of find_lang is an entry of the table. -/
theorem find_lang_mem_table (s : String) (p : String × String)
    (h : find_lang s = some p) : p ∈ SUPPORTED_LANGUAGES := by
  unfold find_lang at h
  exact List.mem_of_find?_eq_some h

/-- The abbreviation of a find_lang result occurs in the abbreviation
column of the table. -/
theorem find_lang_is_abbrev (s : String) (p : String × String)
    (h : find_lang s = some p) : is_abbrev p.2 = true := by
  unfold is_abbrev
  rw [List.any_eq_true]
  exact ⟨p, find_lang_mem_table s p h, by simp⟩

/-- C6: activating a context key with a pair (X, Y) makes a lookup of that
key return exactly (X, Y); a subsequent deactivation makes the lookup
return none; and deactivating an absent key leaves the registry
unchanged. -/
theorem c6_registry_roundtrip (net chan X Y : String) (m : ChanMap) :
    get_channel_langs net chan (activate net chan X Y m) = some (X, Y)
    ∧ get_channel_langs net chan
        (deactivate net chan (activate net chan X Y m)) = none
    ∧ (get_channel_langs net chan m = none → deactivate net chan m = m) := by
  refine ⟨?_, ?_, ?_⟩
  · simp [get_channel_langs, activate, chan_insert]
  · simp [get_channel_langs, deactivate, activate, chan_remove]
  · intro h
    funext x
    by_cases hx : x = (net, chan)
    · subst hx
      simp only [get_channel_langs] at h
      simp [deactivate, chan_remove, h.symm]
    · simp [deactivate, chan_remove, hx]

theorem c6_witness :
    deactivate ("n") ("c") emptyChanMap = emptyChanMap :=
  (c6_registry_roundtrip ("n") ("c") ("en") ("es") emptyChanMap).2.2 rfl

/-- C7: when the two SETLANG arguments resolve to the same table entry
(for instance a full name and the code of the same language), activation
is rejected and the registry is unchanged. -/
theorem c7_setlang_same_language_rejected (cmd src tgt net chan : String)
    (m : ChanMap) (p : String × String)
    (h1 : find_lang src = some p) (h2 : find_lang tgt = some p) :
    on_cmd_setlang [cmd, src, tgt] net chan m = m := by
  simp [on_cmd_setlang, h1, h2]

theorem c7_witness :
    on_cmd_setlang [("SETLANG"), ("English"), ("en")] ("n") ("c") emptyChanMap
      = emptyChanMap :=
  c7_setlang_same_language_rejected ("SETLANG") ("English") ("en") ("n") ("c")
    emptyChanMap (("English"), ("en")) (by decide) (by decide)

/-- C10 (amended): on_cmd_setlang preserves the invariant that every
stored language pair consists of entries of the abbreviation column of the
table (the table also contains empty padding abbreviations, so the empty
string is among the storable codes). -/
theorem c10_registry_codes_normalized (word : List String) (net chan : String)
    (m : ChanMap) (hm : registryNormalized m) :
    registryNormalized (on_cmd_setlang word net chan m) := by
  match word with
  | [] => exact hm
  | [_] => exact hm
  | [_, _] => exact hm
  | _ :: _ :: _ :: _ :: _ => exact hm
  | [a, src, tgt] =>
    cases h1 : find_lang src with
    | none => simpa [on_cmd_setlang, h1] using hm
    | some si =>
      cases h2 : find_lang tgt with
      | none => simpa [on_cmd_setlang, h1, h2] using hm
      | some ti =>
        by_cases hne : si ≠ ti
        · rw [show on_cmd_setlang [a, src, tgt] net chan m
                = activate net chan si.2 ti.2 m from by
              simp [on_cmd_setlang, h1, h2, hne]]
          intro k v hkv
          simp only [activate, chan_insert] at hkv
          by_cases hk : k = (net, chan)
          · rw [if_pos hk] at hkv
            cases hkv
            exact ⟨find_lang_is_abbrev src si h1, find_lang_is_abbrev tgt ti h2⟩
          · rw [if_neg hk] at hkv
            exact hm k v hkv
        · simpa [on_cmd_setlang, h1, h2, hne] using hm

theorem c10_witness :
    registryNormalized
      (on_cmd_setlang [("SETLANG"), ("English"), ("Spanish")] ("n") ("c")
        emptyChanMap) :=
  c10_registry_codes_normalized [("SETLANG"), ("English"), ("Spanish")]
    ("n") ("c") emptyChanMap (fun k v h => by cases h)

/-- C10 counterexample: the claim as stated says every stored code has two
or three characters, but SETLANG with the empty string as an argument
resolves it to a padding entry of the table and stores the empty string as
a code. -/
theorem c10_counterexample :
    get_channel_langs ("n") ("c")
      (on_cmd_setlang [("SETLANG"), (""), ("en")] ("n") ("c") emptyChanMap)
      = some (("", "en"))
    ∧ ¬(("" : String).length = 2 ∨ ("" : String).length = 3) := by
  constructor
  · rfl
  · decide

/-- C9: an event whose last field is the sentinel is ignored by the
receive handler, and every field list the handler re-injects through
emit_print carries the sentinel as its last field. -/
theorem c9_sentinel_guard (word : List String) (langs : Option ChanData)
    (msg : String) :
    (word.getLast? = some ("~") →
       try_on_recv_message word langs msg = .ignore)
    ∧ (∀ fields, try_on_recv_message word langs msg = .emit fields →
       fields.getLast? = some ("~")) := by
  constructor
  · intro h
    simp [try_on_recv_message, h]
  · intro fields h
    unfold try_on_recv_message at h
    split at h
    · cases h
    · split at h
      · by_cases hmc :
          (if 2 < word.length then word.getD 2 ("") else "").isEmpty
        · rw [if_pos hmc] at h
          cases h
          rfl
        · rw [if_neg hmc] at h
          cases h
          rfl
      · cases h

theorem c9_witness :
    try_on_recv_message [("nick"), ("hello"), ("~")] none ("msg") = .ignore
    ∧ (["nick", "out", "~"] : List String).getLast? = some ("~") :=
  ⟨(c9_sentinel_guard [("nick"), ("hello"), ("~")] none ("msg")).1 (by decide),
   (c9_sentinel_guard [("nick"), ("in")] (some (("en"), ("es"))) ("out")).2
     [("nick"), ("out"), ("~")] (by decide)⟩

/-- C8 (amended): a successful unit translation gets exactly one trailing
space re-appended precisely when the unit text ends with the space
character; other trailing whitespace does not trigger the re-append. -/
theorem c8_trailing_space_iff_ends_with_space_char (sentence t : String) :
    (sentence.data.getLast? = some ' ' →
       translate_single sentence (.httpOk (.text t)) = .ok (t.push ' '))
    ∧ (sentence.data.getLast? ≠ some ' ' →
       translate_single sentence (.httpOk (.text t)) = .ok t) := by
  constructor <;> intro h <;> simp [translate_single, h]

theorem c8_witness :
    translate_single ("a ") (.httpOk (.text ("x"))) = .ok (("x" : String).push ' ') :=
  (c8_trailing_space_iff_ends_with_space_char ("a ") ("x")).1 (by decide)

/-- The lazy head only grows, so a successful goMatch yields at least the
characters already consumed. -/
theorem goMatch_le : ∀ (l : List Char) (k m : Nat), goMatch l k = some m → k ≤ m := by
  intro l
  induction l with
  | nil =>
    intro k m h
    simp [goMatch] at h
    omega
  | cons c rest ih =>
    intro k m h
    simp only [goMatch] at h
    cases hp : tryPunct (c :: rest) with
    | some p =>
      rw [hp] at h
      simp at h
      omega
    | none =>
      rw [hp] at h
      by_cases hd : isDot c = true
      · rw [if_pos hd] at h
        have := ih (k + 1) m h
        omega
      · rw [if_neg hd] at h
        cases h

/-- On a haystack fully matched by the dot class, the lazy head can always
reach the end of the input, so goMatch succeeds. -/
theorem goMatch_isDot_some : ∀ (l : List Char) (k : Nat),
    (∀ x ∈ l, isDot x = true) → ∃ m, goMatch l k = some m := by
  intro l
  induction l with
  | nil => intro k _; exact ⟨k, rfl⟩
  | cons c rest ih =>
    intro k hall
    simp only [goMatch]
    cases hp : tryPunct (c :: rest) with
    | some p => exact ⟨k + p, rfl⟩
    | none =>
      rw [if_pos (hall c (by simp))]
      exact ih (k + 1) (fun x hx => hall x (by simp [hx]))

/-- A match starts at the head of every nonempty newline-free haystack,
and it is nonempty. -/
theorem matchFrom_some (c : Char) (rest : List Char)
    (hall : ∀ x ∈ c :: rest, isDot x = true) :
    ∃ m, matchFrom (c :: rest) = some m ∧ 1 ≤ m := by
  obtain ⟨m, hm⟩ := goMatch_isDot_some rest 1 (fun x hx => hall x (by simp [hx]))
  refine ⟨m, ?_, goMatch_le rest 1 m hm⟩
  simp only [matchFrom]
  rw [if_pos (hall c (by simp))]
  exact hm

/-- Iterating the matcher over a newline-free haystack covers it without
gaps: the concatenation of the matches is the haystack. -/
theorem findIterF_flatten : ∀ (fuel : Nat) (l : List Char), l.length ≤ fuel →
    (∀ x ∈ l, isDot x = true) → (findIterF fuel l).flatten = l := by
  intro fuel
  induction fuel with
  | zero =>
    intro l hl _
    have hnil : l = [] := List.length_eq_zero.mp (Nat.le_zero.mp hl)
    subst hnil
    rfl
  | succ f ih =>
    intro l hl hall
    match l with
    | [] => rfl
    | c :: rest =>
      obtain ⟨m, hm, hm1⟩ := matchFrom_some c rest hall
      simp only [findIterF, hm]
      rw [List.flatten_cons]
      have hlen : ((c :: rest).drop m).length ≤ f := by
        rw [List.length_drop]
        simp only [List.length_cons] at hl ⊢
        omega
      have hall' : ∀ x ∈ (c :: rest).drop m, isDot x = true :=
        fun x hx => hall x (List.mem_of_mem_drop hx)
      rw [ih _ hlen hall']
      exact List.take_append_drop m (c :: rest)

/-- C1 (amended): for every input string containing no newline character,
concatenating the texts of all units produced by the segmenter (ignoring
the trailing-space flag) reproduces the input exactly. -/
theorem c1_join_units_eq_input_of_no_newline (s : String)
    (h : ∀ c ∈ s.data, c ≠ '\n') :
    String.join (segment s) = s := by
  apply string_eq_of_data
  rw [String.data_join]
  unfold segment findIter
  rw [List.map_map]
  have hcomp : (String.data ∘ String.mk) = id := rfl
  rw [hcomp, List.map_id]
  exact findIterF_flatten s.data.length s.data (le_refl _)
    (fun x hx => by simpa [isDot] using h x hx)

theorem c1_witness :
    (∀ c ∈ ("Hi. Bye" : String).data, c ≠ '\n')
    ∧ String.join (segment ("Hi. Bye")) = ("Hi. Bye" : String) :=
  ⟨by decide, c1_join_units_eq_input_of_no_newline ("Hi. Bye") (by decide)⟩

/-- C1 counterexample: the regex dot does not match a newline, so an input
containing a bare newline loses characters and the concatenation of the
units differs from the input. -/
theorem c1_counterexample :
    String.join (segment ("a\nb")) ≠ ("a\nb" : String) := by decide

/-- The adjacency property restricts to the tail. -/
theorem noStopWsB_tail (c : Char) (t : List Char)
    (h : noStopWsB (c :: t) = true) : noStopWsB t = true := by
  match t with
  | [] => rfl
  | d :: t' =>
    simp only [noStopWsB, Bool.and_eq_true] at h
    exact h.2

/-- Without a stop character directly followed by whitespace, a nonempty
leading stop run is never followed by leading whitespace. -/
theorem ws_after_stops_empty : ∀ (l : List Char), noStopWsB l = true →
    l.takeWhile isStop ≠ [] → (l.dropWhile isStop).takeWhile isWsRust = [] := by
  intro l
  induction l with
  | nil =>
    intro _ hne
    simp at hne
  | cons c rest ih =>
    intro h hne
    by_cases hc : isStop c = true
    · rw [List.dropWhile_cons_of_pos hc]
      cases rest with
      | nil => rfl
      | cons d rest' =>
        simp only [noStopWsB, Bool.and_eq_true] at h
        have hdw : isWsRust d = false := by
          have h1 := h.1
          simp [hc] at h1
          exact h1
        by_cases hd : isStop d = true
        · have hrec := ih h.2 (by simp [List.takeWhile_cons, hd])
          exact hrec
        · rw [List.dropWhile_cons_of_neg (by simp [hd])]
          simp [List.takeWhile_cons, hdw]
    · exact absurd (by simp [List.takeWhile_cons, hc]) hne

/-- Without a stop character directly followed by whitespace, the first
alternative of the group never fires. -/
theorem tryPunct_none (l : List Char) (h : noStopWsB l = true) :
    tryPunct l = none := by
  by_cases hs : l.takeWhile isStop = []
  · simp [tryPunct, hs]
  · have hws := ws_after_stops_empty l h hs
    simp [tryPunct, hws, hs]

/-- Under the same assumption and with no newline, the match consumes the
whole haystack. -/
theorem goMatch_noStopWs : ∀ (l : List Char) (k : Nat), noStopWsB l = true →
    (∀ x ∈ l, isDot x = true) → goMatch l k = some (k + l.length) := by
  intro l
  induction l with
  | nil =>
    intro k _ _
    simp [goMatch]
  | cons c rest ih =>
    intro k h hall
    simp only [goMatch]
    rw [tryPunct_none (c :: rest) h]
    rw [if_pos (hall c (by simp))]
    rw [ih (k + 1) (noStopWsB_tail c rest h) (fun x hx => hall x (by simp [hx]))]
    simp only [List.length_cons]
    congr 1
    omega

/-- findIterF on the empty haystack is empty for every fuel. -/
theorem findIterF_nil : ∀ fuel, findIterF fuel [] = [] := by
  intro fuel
  cases fuel <;> rfl

/-- C2 (amended): for every nonempty input containing no newline and no
stop-punctuation character directly followed by whitespace, the segmenter
produces exactly one unit equal to the whole input; the empty input gives
no units. -/
theorem c2_single_unit_of_no_stop_ws_no_newline :
    (∀ s : String, s ≠ "" → (∀ c ∈ s.data, c ≠ '\n') →
        noStopWsB s.data = true → segment s = [s])
    ∧ segment ("") = [] := by
  constructor
  · intro s hne hnl hna
    have hdne : s.data ≠ [] := by
      intro hd
      exact hne (string_eq_of_data s ("") (by simpa using hd))
    obtain ⟨c, rest, hcr⟩ := List.exists_cons_of_ne_nil hdne
    have hall : ∀ x ∈ c :: rest, isDot x = true := by
      intro x hx
      have := hnl x (hcr ▸ hx)
      simpa [isDot] using this
    have hmf : matchFrom (c :: rest) = some (rest.length + 1) := by
      simp only [matchFrom]
      rw [if_pos (hall c (by simp))]
      rw [goMatch_noStopWs rest 1 (noStopWsB_tail c rest (hcr ▸ hna))
        (fun x hx => hall x (by simp [hx]))]
      congr 1
      omega
    have ht : (c :: rest).take (rest.length + 1) = c :: rest := by
      simp
    have hd : (c :: rest).drop (rest.length + 1) = [] := by
      simp
    unfold segment findIter
    rw [hcr]
    simp only [List.length_cons, findIterF, hmf, ht, hd, findIterF_nil]
    simp only [List.map]
    rw [← hcr]
  · rfl

theorem c2_witness : segment ("Hello there") = [("Hello there" : String)] :=
  c2_single_unit_of_no_stop_ws_no_newline.1 ("Hello there")
    (by decide) (by decide) (by decide)

/-- C2 counterexample: an input with an internal newline has no stop
punctuation at all, yet the segmenter drops characters and does not return
the whole input as its single unit. -/
theorem c2_counterexample :
    ("a\nb" : String) ≠ ""
    ∧ noStopWsB ("a\nb" : String).data = true
    ∧ segment ("a\nb") ≠ [("a\nb" : String)] := by
  refine ⟨by decide, by decide, by decide⟩

/-- C8 counterexample: the unit produced for the input fragment ending in
a tab ends in whitespace, yet no trailing space is re-appended to its
successful translation, contradicting the claim that the re-append happens
whenever the matched span ends in whitespace. -/
theorem c8_counterexample :
    segment ("Hi.\tBye") = [("Hi.\t"), ("Bye")]
    ∧ ("Hi.\t" : String).data.getLast? = some '\t'
    ∧ isWsRust '\t' = true
    ∧ translate_single ("Hi.\t") (.httpOk (.text ("x"))) = .ok ("x")
    ∧ ("x" : String) ≠ ("x" : String).push ' ' := by
  refine ⟨by decide, by decide, by decide, rfl, by decide⟩

/-- The output text accumulated by the loop is the spec's per-unit joined
text. -/
theorem gtfRunE_fst (units : List String) : ∀ env,
    (gtfRunE env units).1 = spec_output_text env units := by
  induction units with
  | nil => intro env; rfl
  | cons u rest ih =>
    intro env
    simp only [gtfRunE, spec_output_text]
    cases h : translate_single u (env 0) with
    | ok t => simp [h, ih]
    | error e => simp [h, ih]

/-- The error list accumulated by the loop is the per-unit error
description list, in original order. -/
theorem gtfRunE_errs (units : List String) : ∀ env,
    (gtfRunE env units).2.1 = unit_error_msgs env units := by
  induction units with
  | nil => intro env; rfl
  | cons u rest ih =>
    intro env
    simp only [gtfRunE, unit_error_msgs]
    cases h : translate_single u (env 0) with
    | ok t => simp [h, ih]
    | error e => simp [h, ih]

/-- The rate-limit flag accumulated by the loop is the disjunction of the
per-unit rate-limit classifications. -/
theorem gtfRunE_over (units : List String) : ∀ env,
    (gtfRunE env units).2.2 = any_over env units := by
  induction units with
  | nil => intro env; rfl
  | cons u rest ih =>
    intro env
    simp only [gtfRunE, any_over]
    cases h : translate_single u (env 0) with
    | ok t => simp [h, ih]
    | error e => simp [h, ih]

/-- C3: for every message and environment of per-unit outcomes, the output
text of google_translate_free (clean result or best-effort text of the
error) is the in-order concatenation that keeps the original unit text at
every failed position and the translation at every successful one. -/
theorem c3_failed_units_keep_original_text (text : String)
    (env : Nat → NetOutcome) :
    output_text (google_translate_free text env)
      = spec_output_text env (segment text) := by
  by_cases h : (gtfRunE env (segment text)).2.1.isEmpty
  · simp [google_translate_free, h, output_text, gtfRunE_fst]
  · simp [google_translate_free, h, output_text, gtfRunE_fst]

/-- The lexicographic comparison is total. -/
theorem charListLe_total : ∀ x y : List Char,
    charListLe x y = true ∨ charListLe y x = true := by
  intro x
  induction x with
  | nil => intro y; left; rfl
  | cons a as ih =>
    intro y
    cases y with
    | nil => right; rfl
    | cons b bs =>
      rcases lt_trichotomy a b with h | h | h
      · left; simp [charListLe, h]
      · subst h
        rcases ih bs with h' | h'
        · left; simp [charListLe, lt_irrefl, h']
        · right; simp [charListLe, lt_irrefl, h']
      · right; simp [charListLe, h]

/-- The lexicographic comparison is transitive. -/
theorem charListLe_trans : ∀ x y z : List Char, charListLe x y = true →
    charListLe y z = true → charListLe x z = true := by
  intro x
  induction x with
  | nil => intro y z _ _; rfl
  | cons a as ih =>
    intro y z hxy hyz
    cases y with
    | nil => simp [charListLe] at hxy
    | cons b bs =>
      cases z with
      | nil => simp [charListLe] at hyz
      | cons c cs =>
        rcases lt_trichotomy a b with hab | hab | hab
        · rcases lt_trichotomy b c with hbc | hbc | hbc
          · simp [charListLe, lt_trans hab hbc]
          · subst hbc; simp [charListLe, hab]
          · simp [charListLe, hbc, lt_asymm hbc] at hyz
        · subst hab
          simp only [charListLe, lt_irrefl, if_false] at hxy
          rcases lt_trichotomy a c with hac | hac | hac
          · simp [charListLe, hac]
          · subst hac
            simp only [charListLe, lt_irrefl, if_false] at hyz ⊢
            exact ih bs cs hxy hyz
          · simp [charListLe, hac, lt_asymm hac] at hyz
        · simp [charListLe, hab, lt_asymm hab] at hxy

/-- The lexicographic comparison is antisymmetric. -/
theorem charListLe_antisymm : ∀ x y : List Char, charListLe x y = true →
    charListLe y x = true → x = y := by
  intro x
  induction x with
  | nil =>
    intro y _ hyx
    cases y with
    | nil => rfl
    | cons b bs => simp [charListLe] at hyx
  | cons a as ih =>
    intro y hxy hyx
    cases y with
    | nil => simp [charListLe] at hxy
    | cons b bs =>
      rcases lt_trichotomy a b with h | h | h
      · simp [charListLe, h, lt_asymm h] at hyx
      · subst h
        simp only [charListLe, lt_irrefl, if_false] at hxy hyx
        rw [ih bs hxy hyx]
      · simp [charListLe, h, lt_asymm h] at hxy

theorem strLe_total (a b : String) : strLe a b ∨ strLe b a :=
  charListLe_total a.data b.data

theorem strLe_trans {a b c : String} (h1 : strLe a b) (h2 : strLe b c) :
    strLe a c :=
  charListLe_trans a.data b.data c.data h1 h2

theorem strLe_antisymm {a b : String} (h1 : strLe a b) (h2 : strLe b a) :
    a = b :=
  string_eq_of_data a b (charListLe_antisymm a.data b.data h1 h2)

theorem strLe_refl (a : String) : strLe a a := by
  rcases strLe_total a a with h | h <;> exact h

instance : IsTotal String strLe := ⟨strLe_total⟩

instance : IsTrans String strLe := ⟨fun _ _ _ => strLe_trans⟩

/-- Dropping consecutive duplicates preserves membership. -/
theorem mem_dedupConsec : ∀ (l : List String) (a : String),
    a ∈ dedupConsec l ↔ a ∈ l := by
  intro l
  induction l with
  | nil => intro a; simp [dedupConsec]
  | cons b t ih =>
    intro a
    cases t with
    | nil => simp [dedupConsec]
    | cons c t' =>
      by_cases h : b = c
      · rw [show dedupConsec (b :: c :: t') = dedupConsec (c :: t') from by
          simp [dedupConsec, h]]
        rw [ih a]
        subst h
        simp [List.mem_cons]
      · rw [show dedupConsec (b :: c :: t') = b :: dedupConsec (c :: t') from by
          simp [dedupConsec, h]]
        simp [List.mem_cons, ih a]

/-- On a weakly sorted list, dropping consecutive duplicates yields a
strictly sorted list. -/
theorem sorted_lt_dedupConsec : ∀ l : List String,
    l.Sorted strLe → (dedupConsec l).Sorted strLt := by
  intro l
  induction l with
  | nil => intro _; simp [dedupConsec]
  | cons b t ih =>
    intro hs
    cases t with
    | nil => simp [dedupConsec]
    | cons c t' =>
      have hparts := List.sorted_cons.mp hs
      have hbc : strLe b c := hparts.1 c (by simp)
      by_cases h : b = c
      · rw [show dedupConsec (b :: c :: t') = dedupConsec (c :: t') from by
          simp [dedupConsec, h]]
        exact ih hparts.2
      · rw [show dedupConsec (b :: c :: t') = b :: dedupConsec (c :: t') from by
          simp [dedupConsec, h]]
        rw [List.sorted_cons]
        refine ⟨?_, ih hparts.2⟩
        intro x hx
        have hxc : x ∈ c :: t' := (mem_dedupConsec (c :: t') x).mp hx
        have hcx : strLe c x := by
          rcases List.mem_cons.mp hxc with h' | h'
          · rw [h']; exact strLe_refl c
          · exact (List.sorted_cons.mp hparts.2).1 x h'
        refine ⟨strLe_trans hbc hcx, ?_⟩
        intro hbx
        rw [← hbx] at hcx
        exact h (strLe_antisymm hbc hcx)

/-- Two strictly sorted lists with the same members are equal. -/
theorem sorted_lt_ext : ∀ (l₁ l₂ : List String), l₁.Sorted strLt →
    l₂.Sorted strLt → (∀ a, a ∈ l₁ ↔ a ∈ l₂) → l₁ = l₂ := by
  intro l₁
  induction l₁ with
  | nil =>
    intro l₂ _ _ hmem
    cases l₂ with
    | nil => rfl
    | cons b t => exact absurd ((hmem b).mpr (by simp)) (by simp)
  | cons a t ih =>
    intro l₂ h1 h2 hmem
    cases l₂ with
    | nil => exact absurd ((hmem a).mp (by simp)) (by simp)
    | cons b t₂ =>
      have hab : a = b := by
        have ha2 : a ∈ b :: t₂ := (hmem a).mp (by simp)
        have hb1 : b ∈ a :: t := (hmem b).mpr (by simp)
        rcases List.mem_cons.mp ha2 with h' | h'
        · exact h'
        · rcases List.mem_cons.mp hb1 with h'' | h''
          · exact h''.symm
          · have hba : strLt b a := (List.sorted_cons.mp h2).1 a h'
            have hab2 : strLt a b := (List.sorted_cons.mp h1).1 b h''
            exact absurd (strLe_antisymm hab2.1 hba.1) hab2.2
      subst hab
      have htails : t = t₂ := by
        apply ih t₂ (List.sorted_cons.mp h1).2 (List.sorted_cons.mp h2).2
        intro x
        constructor
        · intro hx
          have hx2 : x ∈ a :: t₂ := (hmem x).mp (by simp [hx])
          rcases List.mem_cons.mp hx2 with h' | h'
          · subst h'
            exact absurd rfl ((List.sorted_cons.mp h1).1 _ hx).2
          · exact h'
        · intro hx
          have hx1 : x ∈ a :: t := (hmem x).mpr (by simp [hx])
          rcases List.mem_cons.mp hx1 with h' | h'
          · subst h'
            exact absurd rfl ((List.sorted_cons.mp h2).1 _ hx).2
          · exact h'
      rw [htails]

/-- The display message of a returned aggregate error joins the sorted,
consecutive-deduplicated per-unit error descriptions with single
spaces. -/
theorem gtf_error_msg (text : String) (env : Nat → NetOutcome)
    (e : TranslationError) (h : google_translate_free text env = .error e) :
    e.error_msg = String.intercalate (" ")
      (dedupConsec (List.insertionSort strLe
        (unit_error_msgs env (segment text)))) := by
  unfold google_translate_free at h
  split at h
  · cases h
  · cases h
    simp [gtfRunE_errs]

/-- C4: when a message returns an aggregate error, its display message
joins a strictly sorted list holding exactly the distinct per-unit error
descriptions; consequently two runs whose failing units produced the same
set of descriptions display the same message, regardless of the order the
failures occurred in. -/
theorem c4_error_descriptions_sorted_dedup (text : String)
    (env : Nat → NetOutcome) (e : TranslationError)
    (h : google_translate_free text env = .error e) :
    (∃ L : List String, L.Sorted strLt
       ∧ (∀ s, s ∈ L ↔ s ∈ unit_error_msgs env (segment text))
       ∧ e.error_msg = String.intercalate (" ") L)
    ∧ ∀ (text₂ : String) (env₂ : Nat → NetOutcome) (e₂ : TranslationError),
        google_translate_free text₂ env₂ = .error e₂ →
        (∀ s, s ∈ unit_error_msgs env (segment text) ↔
              s ∈ unit_error_msgs env₂ (segment text₂)) →
        e.error_msg = e₂.error_msg := by
  constructor
  · refine ⟨dedupConsec (List.insertionSort strLe
      (unit_error_msgs env (segment text))), ?_, ?_, gtf_error_msg text env e h⟩
    · exact sorted_lt_dedupConsec _ (List.sorted_insertionSort strLe _)
    · intro s
      rw [mem_dedupConsec]
      exact (List.perm_insertionSort strLe _).mem_iff
  · intro text₂ env₂ e₂ h₂ hmemeq
    rw [gtf_error_msg text env e h, gtf_error_msg text₂ env₂ e₂ h₂]
    congr 1
    apply sorted_lt_ext
    · exact sorted_lt_dedupConsec _ (List.sorted_insertionSort strLe _)
    · exact sorted_lt_dedupConsec _ (List.sorted_insertionSort strLe _)
    · intro a
      rw [mem_dedupConsec, mem_dedupConsec]
      rw [(List.perm_insertionSort strLe _).mem_iff,
          (List.perm_insertionSort strLe _).mem_iff]
      exact hmemeq a

theorem c4_witness :
    ∃ L : List String, L.Sorted strLt
      ∧ (∀ s, s ∈ L ↔ s ∈ unit_error_msgs (fun _ => NetOutcome.transportFail)
            (segment ("A. B")))
      ∧ (TranslationError.mk ("A. B")
           ("Failed to get response from translation server.") false).error_msg
          = String.intercalate (" ") L :=
  (c4_error_descriptions_sorted_dedup ("A. B")
    (fun _ => NetOutcome.transportFail)
    (TranslationError.mk ("A. B")
      ("Failed to get response from translation server.") false) rfl).1

/-- A rate-limited unit always records an error description. -/
theorem any_over_errs_ne (units : List String) : ∀ env,
    any_over env units = true → unit_error_msgs env units ≠ [] := by
  induction units with
  | nil =>
    intro env h
    cases h
  | cons u rest ih =>
    intro env h
    simp only [any_over] at h
    simp only [unit_error_msgs]
    cases ht : translate_single u (env 0) with
    | ok t =>
      rw [ht] at h
      simp only [Bool.false_or] at h
      exact ih _ h
    | error e =>
      simp

/-- C5: the aggregate error's rate-limit flag equals the disjunction of
the per-unit rate-limit classifications; a successful result implies no
unit was rate limited, and a failure-free run returns a success. -/
theorem c5_over_limit_iff (text : String) (env : Nat → NetOutcome) :
    (∀ e, google_translate_free text env = .error e →
        e.over_limit = any_over env (segment text))
    ∧ (∀ s, google_translate_free text env = .ok s →
        any_over env (segment text) = false)
    ∧ (unit_error_msgs env (segment text) = [] →
        ∃ s, google_translate_free text env = .ok s) := by
  refine ⟨?_, ?_, ?_⟩
  · intro e h
    unfold google_translate_free at h
    split at h
    · cases h
    · cases h
      simp [gtfRunE_over]
  · intro s h
    unfold google_translate_free at h
    split at h
    · rename_i hemp
      rw [gtfRunE_errs] at hemp
      cases hq : any_over env (segment text)
      · rfl
      · exact absurd (List.isEmpty_iff.mp hemp)
          (any_over_errs_ne (segment text) env hq)
    · cases h
  · intro h
    unfold google_translate_free
    split
    · exact ⟨_, rfl⟩
    · rename_i hemp
      rw [gtfRunE_errs, h] at hemp
      simp at hemp

theorem c5_witness :
    (TranslationError.mk ("Hi") ("Server translation limit reached.")
        true).over_limit
      = any_over (fun _ => NetOutcome.http403) (segment ("Hi")) :=
  (c5_over_limit_iff ("Hi") (fun _ => NetOutcome.http403)).1
    (TranslationError.mk ("Hi") ("Server translation limit reached.") true) rfl

end HexTr
